import Mathlib

/-!
Shallow embedding of `src/experanto/interpolators.py`.

Times, phase shifts and signal values are modelled as rationals (`ℚ`);
numpy arrays become Lean lists; fallible numpy operations (indexing with an
out-of-range index, attribute access on a missing attribute) become
`Option`/`Except` results.  Each definition mirrors one Python
function/method; line numbers in the doc comments refer to
`interpolators.py`.
-/

namespace Experanto

/-- Half-open time interval (`TimeInterval`, lines 12-25). -/
structure TimeInterval where
  start : ℚ
  «end» : ℚ
deriving Repr, DecidableEq

/-- Membership `start <= time < end` (`TimeInterval.__contains__`, lines 17-18). -/
def TimeInterval.mem (I : TimeInterval) (time : ℚ) : Bool :=
  decide (I.start ≤ time) && decide (time < I.«end»)

/-- Elementwise `(times >= start) & (times < end)` (`TimeInterval.intersect`, lines 20-21). -/
def TimeInterval.intersect (I : TimeInterval) (times : List ℚ) : List Bool :=
  times.map (fun t => I.mem t)

/-- The fixed forward nudge `1e-6` added to valid query times (line 123). -/
def eps : ℚ := 1 / 1000000

/-- Adds the fixed epsilon to every element (`valid_times += 1e-6`, line 123). -/
def nudge (times : List ℚ) : List ℚ :=
  times.map (fun t => t + eps)

/-- Boolean test that a list is strictly increasing between adjacent entries,
modelling `np.all(np.diff(valid_times) > 0)` (line 125). -/
def strictlyIncreasing : List ℚ → Bool
  | [] => true
  | [_] => true
  | a :: b :: r => decide (a < b) && strictlyIncreasing (b :: r)

/-- Maps a fallible function over a list, failing if any element fails;
models a vectorized numpy operation that raises on any bad element. -/
def mapOpt (f : α → Option β) : List α → Option (List β)
  | [] => some []
  | a :: l =>
    match f a, mapOpt f l with
    | some b, some bs => some (b :: bs)
    | _, _ => none

/-- Resolution of an integer index into an axis of length `n` with numpy
semantics: indices in `[0, n)` are used as-is, indices in `[-n, 0)` wrap
around from the end, and anything else raises `IndexError` (`none`). -/
def npIndex (n : ℕ) (i : ℤ) : Option ℕ :=
  if 0 ≤ i ∧ i < (n : ℤ) then some i.toNat
  else if -(n : ℤ) ≤ i ∧ i < 0 then some (i + n).toNat
  else none

/-- Maximum of a numpy array (`np.max`, used on `phase_shifts`, line 78). -/
def npMax : List ℚ → ℚ
  | [] => 0
  | [a] => a
  | a :: b :: r => max a (npMax (b :: r))

/-- Minimum of a numpy array (`np.min`, used on `phase_shifts`, line 79). -/
def npMin : List ℚ → ℚ
  | [] => 0
  | [a] => a
  | a :: b :: r => min a (npMin (b :: r))

/-- Left insertion point of `v` into the sorted list `ts`: the number of
elements strictly below `v`.  On a sorted list this is exactly what
`np.searchsorted(ts, v)` (default `side=left`, line 126) returns. -/
def searchsortedLeft : List ℚ → ℚ → ℕ
  | [], _ => 0
  | a :: r, v => (if a < v then 1 else 0) + searchsortedLeft r v

/-- Round-half-to-even on rationals, modelling `np.round` followed by
`.astype(int)` (line 87); the value is integral after `np.round`, so the
cast truncation is exact. -/
def roundHalfEven (q : ℚ) : ℤ :=
  if Int.fract q = 1/2 then
    (if Even ⌊q⌋ then ⌊q⌋ else ⌊q⌋ + 1)
  else round q

/-- State of a `SequenceInterpolator` (lines 67-88) after `__init__`.
`_phase_shifts` is `none` when the attribute was never assigned (the
branch at lines 75-80 not taken); `_data` is the `data.npy` tensor,
row = sample, column = channel. -/
structure SequenceInterpolator where
  start_time : ℚ
  end_time : ℚ
  valid_interval : TimeInterval
  time_delta : ℚ
  use_phase_shifts : Bool
  phase_shifts : Option (List ℚ)
  data : List (List ℚ)
deriving Repr

/-- Embeds `SequenceInterpolator.__init__` (lines 69-81): `time_delta` is the
reciprocal sampling rate, and when `phase_shift_per_signal` is set the valid
interval is narrowed to `[start + max(shifts), end + min(shifts))` and the
shifts file is loaded; otherwise the `_phase_shifts` attribute is never
assigned. -/
def SequenceInterpolator.init (start_time end_time sampling_rate : ℚ)
    (phase_shift_per_signal : Bool) (phase_shifts_file : List ℚ)
    (data_file : List (List ℚ)) : SequenceInterpolator :=
  { start_time := start_time
    end_time := end_time
    valid_interval :=
      if phase_shift_per_signal then
        ⟨start_time + npMax phase_shifts_file, end_time + npMin phase_shifts_file⟩
      else ⟨start_time, end_time⟩
    time_delta := 1 / sampling_rate
    use_phase_shifts := phase_shift_per_signal
    phase_shifts := if phase_shift_per_signal then some phase_shifts_file else none
    data := data_file }

/-- One entry of `np.take_along_axis(self._data, idx, axis=0)` (line 88):
row `i` (with numpy wrap-around for negatives), column `c`. -/
def seqGatherEntry (data : List (List ℚ)) (i : ℤ) (c : ℕ) : Option ℚ := do
  let r ← npIndex data.length i
  let row ← data[r]?
  row[c]?

/-- Embeds `SequenceInterpolator.interpolate` (lines 83-88).  Reading
`self._phase_shifts` when the attribute was never assigned raises
`AttributeError`; an out-of-range gather raises `IndexError`. -/
def SequenceInterpolator.interpolate (s : SequenceInterpolator) (times : List ℚ) :
    Except String (List (List ℚ) × List Bool) :=
  let valid := s.valid_interval.intersect times
  let valid_times := times.filter (fun t => s.valid_interval.mem t)
  match s.phase_shifts with
  | none =>
    .error "AttributeError: 'SequenceInterpolator' object has no attribute '_phase_shifts'"
  | some ps =>
    match mapOpt (fun t =>
        mapOpt (fun cp : ℕ × ℚ =>
            seqGatherEntry s.data
              (roundHalfEven ((t - cp.2 - s.start_time) / s.time_delta)) cp.1)
          ps.enum) valid_times with
    | some vals => .ok (vals, valid)
    | none => .error "IndexError"

/-- Per-chunk metadata relevant to frame resolution (`ScreenMeta`,
lines 141-148): the chunk's first global frame index and frame count. -/
structure ScreenMeta where
  first_frame : ℤ
  num_frames : ℕ
deriving Repr, DecidableEq

/-- State of a `ScreenInterpolator` (lines 91-138) after `__init__`:
per-frame onset `timestamps`, the ordered chunk metadata list, and the
contents of each chunk's data file (`chunkData[i]` is what
`np.load(self._data_files[i])` returns, a list of frames; a frame is a
flattened list of pixel values). -/
structure ScreenInterpolator where
  start_time : ℚ
  end_time : ℚ
  valid_interval : TimeInterval
  timestamps : List ℚ
  meta : List ScreenMeta
  chunkData : List (List (List ℚ))
deriving Repr

/-- Helper for `dataFileIdx`: `np.concatenate([np.full(m.num_frames, i)
for i, m in enumerate(self.meta)])` with enumeration starting at `i`. -/
def dfiAux : ℕ → List ScreenMeta → List ℕ
  | _, [] => []
  | i, m :: ms => List.replicate m.num_frames i ++ dfiAux (i + 1) ms

/-- The per-global-frame chunk-index map `self._data_file_idx` (line 102). -/
def ScreenInterpolator.dataFileIdx (s : ScreenInterpolator) : List ℕ :=
  dfiAux 0 s.meta

/-- Reading frame `i` out of chunk `u`: load the chunk file, subtract the
chunk's first global frame index and index the chunk tensor
(`data[idx[...] - self._first_frame_idx[u_idx]]`, lines 134-136). -/
def chunkLookup (meta : List ScreenMeta) (chunkData : List (List (List ℚ)))
    (u : ℕ) (i : ℤ) : Option (List ℚ) := do
  let chunk ← chunkData[u]?
  let m ← meta[u]?
  let loc ← npIndex chunk.length (i - m.first_frame)
  chunk[loc]?

/-- Resolution of global frame index `i` to its frame: find the owning chunk
via `self._data_file_idx[idx]` (line 128) and read the frame from that
chunk's file (lines 133-136). -/
def ScreenInterpolator.gatherFrame (s : ScreenInterpolator) (i : ℤ) : Option (List ℚ) := do
  let gi ← npIndex s.dataFileIdx.length i
  let u ← s.dataFileIdx[gi]?
  chunkLookup s.meta s.chunkData u i

/-- Frame-index resolution (`np.searchsorted(self.timestamps, valid_times) - 1`,
line 126), applied to the already-nudged valid query times. -/
def resolveFrameIdx (timestamps : List ℚ) (nudged_times : List ℚ) : List ℤ :=
  nudged_times.map (fun v => (searchsortedLeft timestamps v : ℤ) - 1)

/-- Embeds `ScreenInterpolator.interpolate` (lines 120-138): filter to valid
times, nudge by epsilon, assert strictly increasing, resolve frame indices,
assert them in `[0, len(timestamps))`, then gather each frame from its
owning chunk file. -/
def ScreenInterpolator.interpolate (s : ScreenInterpolator) (times : List ℚ) :
    Except String (List (List ℚ) × List Bool) :=
  let valid := s.valid_interval.intersect times
  let valid_times := nudge (times.filter (fun t => s.valid_interval.mem t))
  if strictlyIncreasing valid_times then
    let idx := resolveFrameIdx s.timestamps valid_times
    if idx.all (fun i => decide (0 ≤ i) && decide (i < (s.timestamps.length : ℤ))) then
      match mapOpt s.gatherFrame idx with
      | some out => .ok (out, valid)
      | none => .error "IndexError"
    else .error "All times must be within the valid range"
  else .error "Times must be sorted"

/-- The effective `Interpolator.__contains__` as seen by a
`SequenceInterpolator`.  The class body defines `__contains__` twice
(lines 48-49 and 60-61); the second definition shadows the first, and it
reads `self.timestamps`, an attribute a `SequenceInterpolator` never
assigns, so the call raises `AttributeError`. -/
def SequenceInterpolator.contains (_ : SequenceInterpolator) (_ : List ℚ) :
    Except String Bool :=
  .error "AttributeError: 'SequenceInterpolator' object has no attribute 'timestamps'"

/-- The effective `Interpolator.__contains__` as seen by a
`ScreenInterpolator` (second definition, lines 60-61):
`np.any((times >= self.timestamps[0]) & (times <= self.timestamps[-1]))`,
raising `IndexError` on an empty timestamps array. -/
def ScreenInterpolator.contains (s : ScreenInterpolator) (times : List ℚ) :
    Except String Bool :=
  match s.timestamps with
  | [] => .error "IndexError"
  | a :: r =>
    .ok (times.any (fun t =>
      decide (a ≤ t) && decide (t ≤ (a :: r).getLast (List.cons_ne_nil a r))))

/-- The shadowed first `__contains__` definition (lines 48-49), which the
spec describes for non-screen interpolators: `np.any(self.valid_times(times))`.
Kept only to state what the spec claims; it is unreachable in the code. -/
def containsFirstDef (valid_interval : TimeInterval) (times : List ℚ) : Bool :=
  (valid_interval.intersect times).any id

/-- A heap of numpy float arrays, used to make the buffer effects of
`interpolate` explicit: references are indices into the store. -/
abbrev Store := List (List ℚ)

/-- Dereferences an array reference. -/
def Store.read (σ : Store) (r : ℕ) : List ℚ :=
  σ.getD r []

/-- Allocates a fresh array holding `v` and returns its reference;
models the fresh copy produced by numpy boolean-mask indexing. -/
def Store.alloc (σ : Store) (v : List ℚ) : ℕ × Store :=
  (σ.length, σ ++ [v])

/-- Overwrites the array behind reference `r` in place. -/
def Store.write (σ : Store) (r : ℕ) (v : List ℚ) : Store :=
  σ.set r v

/-- Store-passing version of `ScreenInterpolator.interpolate` (lines 120-138),
making the array effects explicit: `times[valid]` allocates a fresh array
(numpy boolean-mask indexing copies), `valid_times += 1e-6` mutates that
fresh array in place, and no attribute of the interpolator is written. -/
def ScreenInterpolator.interpolateM (s : ScreenInterpolator) (tRef : ℕ) (σ : Store) :
    Except String (List (List ℚ) × List Bool) × Store :=
  let times := σ.read tRef
  let valid := s.valid_interval.intersect times
  let alloc1 := σ.alloc (times.filter (fun t => s.valid_interval.mem t))
  let σ1 := alloc1.2
  let σ2 := σ1.write alloc1.1 (nudge (σ1.read alloc1.1))
  let valid_times := σ2.read alloc1.1
  (if strictlyIncreasing valid_times then
    let idx := resolveFrameIdx s.timestamps valid_times
    if idx.all (fun i => decide (0 ≤ i) && decide (i < (s.timestamps.length : ℤ))) then
      match mapOpt s.gatherFrame idx with
      | some out => .ok (out, valid)
      | none => .error "IndexError"
    else .error "All times must be within the valid range"
  else .error "Times must be sorted", σ2)

/-- Store-passing version of `SequenceInterpolator.interpolate` (lines 83-88):
`times[valid]` allocates a fresh array and nothing is mutated. -/
def SequenceInterpolator.interpolateM (s : SequenceInterpolator) (tRef : ℕ) (σ : Store) :
    Except String (List (List ℚ) × List Bool) × Store :=
  let times := σ.read tRef
  let valid := s.valid_interval.intersect times
  let alloc1 := σ.alloc (times.filter (fun t => s.valid_interval.mem t))
  let σ1 := alloc1.2
  let valid_times := σ1.read alloc1.1
  (match s.phase_shifts with
  | none =>
    .error "AttributeError: 'SequenceInterpolator' object has no attribute '_phase_shifts'"
  | some ps =>
    match mapOpt (fun t =>
        mapOpt (fun cp : ℕ × ℚ =>
            seqGatherEntry s.data
              (roundHalfEven ((t - cp.2 - s.start_time) / s.time_delta)) cp.1)
          ps.enum) valid_times with
    | some vals => .ok (vals, valid)
    | none => .error "IndexError", σ1)

/-- The single-chunk recording holding the same logical frames as `s`:
one chunk whose data file is the concatenation of all of `s`'s chunk files,
with `first_frame = 0` and `num_frames` the total frame count. -/
def singleChunk (s : ScreenInterpolator) : ScreenInterpolator :=
  { s with
    meta := [⟨0, s.chunkData.flatten.length⟩]
    chunkData := [s.chunkData.flatten] }

/-- A concrete screen recording used for closed-form checks: frame onsets
`[0, 1, 2, 3]`, one chunk of four one-pixel frames. -/
def demoScreen : ScreenInterpolator :=
  { start_time := 0
    end_time := 4
    valid_interval := ⟨0, 4⟩
    timestamps := [0, 1, 2, 3]
    meta := [⟨0, 4⟩]
    chunkData := [[[0], [10], [20], [30]]] }

/-- A concrete phase-shifted sequence recording used for closed-form checks:
start 0, end 10, sampling rate 1, one channel with shift 0, 11 data rows. -/
def demoSeq : SequenceInterpolator :=
  SequenceInterpolator.init 0 10 1 true [0] (List.replicate 11 [0])

/-- A concrete screen recording whose valid interval starts before its first
frame onset, so a valid query time can resolve to frame index `-1`. -/
def demoScreen2 : ScreenInterpolator :=
  { start_time := 0
    end_time := 3
    valid_interval := ⟨0, 3⟩
    timestamps := [1, 2]
    meta := [⟨0, 2⟩]
    chunkData := [[[5], [7]]] }

/-- A concrete two-chunk screen recording used for closed-form checks. -/
def demoMulti : ScreenInterpolator :=
  { start_time := 0
    end_time := 2
    valid_interval := ⟨0, 2⟩
    timestamps := [0, 1]
    meta := [⟨0, 1⟩, ⟨1, 1⟩]
    chunkData := [[[5]], [[7]]] }

/-! ### Basic lemmas about the numeric primitives -/

lemma eps_pos : 0 < eps := by norm_num [eps]

lemma roundHalfEven_le (q : ℚ) : (roundHalfEven q : ℚ) ≤ q + 1/2 := by
  unfold roundHalfEven
  split
  · next h =>
    have hf : (⌊q⌋ : ℚ) = q - 1/2 := by
      have : q - (⌊q⌋ : ℚ) = 1/2 := h
      linarith
    split
    · rw [hf]; linarith
    · push_cast [hf]; linarith
  · next h =>
    have := abs_sub_round q
    rw [abs_le] at this
    linarith [this.2]

lemma le_roundHalfEven (q : ℚ) : q - 1/2 ≤ (roundHalfEven q : ℚ) := by
  unfold roundHalfEven
  split
  · next h =>
    have hf : (⌊q⌋ : ℚ) = q - 1/2 := by
      have : q - (⌊q⌋ : ℚ) = 1/2 := h
      linarith
    split
    · rw [hf]
    · push_cast [hf]; linarith
  · next h =>
    have := abs_sub_round q
    rw [abs_le] at this
    linarith [this.1]

lemma roundHalfEven_le_of_lt {x y : ℚ} (h : x < y) :
    roundHalfEven x ≤ roundHalfEven y := by
  have h1 := roundHalfEven_le x
  have h2 := le_roundHalfEven y
  have hq : (roundHalfEven x : ℚ) < (roundHalfEven y : ℚ) + 1 := by linarith
  have hz : roundHalfEven x < roundHalfEven y + 1 := by exact_mod_cast hq
  omega

lemma roundHalfEven_nonneg {x : ℚ} (h : 0 ≤ x) : 0 ≤ roundHalfEven x := by
  have h2 := le_roundHalfEven x
  have hq : (-1 : ℚ) < (roundHalfEven x : ℚ) := by linarith
  have hz : (-1 : ℤ) < roundHalfEven x := by exact_mod_cast hq
  omega

lemma roundHalfEven_intCast (n : ℤ) : roundHalfEven (n : ℚ) = n := by
  unfold roundHalfEven
  rw [Int.fract_intCast]
  norm_num [round_intCast]

lemma le_npMax : ∀ {l : List ℚ} {a : ℚ}, a ∈ l → a ≤ npMax l
  | [b], a, h => by
    simp only [List.mem_singleton] at h
    simp [npMax, h]
  | b :: c :: r, a, h => by
    rcases List.mem_cons.mp h with h1 | h2
    · subst h1
      simp only [npMax]
      exact le_max_left _ _
    · simp only [npMax]
      exact le_trans (le_npMax h2) (le_max_right _ _)

lemma npMin_le : ∀ {l : List ℚ} {a : ℚ}, a ∈ l → npMin l ≤ a
  | [b], a, h => by
    simp only [List.mem_singleton] at h
    simp [npMin, h]
  | b :: c :: r, a, h => by
    rcases List.mem_cons.mp h with h1 | h2
    · subst h1
      simp only [npMin]
      exact min_le_left _ _
    · simp only [npMin]
      exact le_trans (min_le_right _ _) (npMin_le h2)

lemma mapOpt_length {f : α → Option β} :
    ∀ {l : List α} {l2 : List β}, mapOpt f l = some l2 → l2.length = l.length
  | [], l2, h => by
    simp only [mapOpt, Option.some.injEq] at h
    simp [← h]
  | a :: l, l2, h => by
    simp only [mapOpt] at h
    cases hfa : f a with
    | none => rw [hfa] at h; exact absurd h (by simp)
    | some b =>
      rw [hfa] at h
      cases hml : mapOpt f l with
      | none => rw [hml] at h; exact absurd h (by simp)
      | some bs =>
        rw [hml] at h
        simp only [Option.some.injEq] at h
        subst h
        simp [mapOpt_length hml]

lemma mapOpt_mem {f : α → Option β} :
    ∀ {l : List α} {l2 : List β}, mapOpt f l = some l2 →
    ∀ b ∈ l2, ∃ a ∈ l, f a = some b
  | [], l2, h => by
    simp only [mapOpt, Option.some.injEq] at h
    simp [← h]
  | a :: l, l2, h => by
    simp only [mapOpt] at h
    cases hfa : f a with
    | none => rw [hfa] at h; exact absurd h (by simp)
    | some b =>
      rw [hfa] at h
      cases hml : mapOpt f l with
      | none => rw [hml] at h; exact absurd h (by simp)
      | some bs =>
        rw [hml] at h
        simp only [Option.some.injEq] at h
        subst h
        intro x hx
        rcases List.mem_cons.mp hx with h1 | h2
        · exact ⟨a, List.mem_cons_self a l, by rw [hfa, h1]⟩
        · rcases mapOpt_mem hml x h2 with ⟨a2, ha2, hfa2⟩
          exact ⟨a2, List.mem_cons_of_mem a ha2, hfa2⟩

lemma mapOpt_congr {f g : α → Option β} :
    ∀ {l : List α}, (∀ a ∈ l, f a = g a) → mapOpt f l = mapOpt g l
  | [], _ => rfl
  | a :: l, h => by
    simp only [mapOpt]
    rw [h a (List.mem_cons_self a l), mapOpt_congr (fun x hx => h x (List.mem_cons_of_mem a hx))]

lemma searchsortedLeft_eq_zero {v : ℚ} :
    ∀ {l : List ℚ}, (∀ x ∈ l, ¬ x < v) → searchsortedLeft l v = 0
  | [], _ => rfl
  | a :: r, h => by
    simp only [searchsortedLeft]
    rw [if_neg (h a (List.mem_cons_self a r)),
      searchsortedLeft_eq_zero (fun x hx => h x (List.mem_cons_of_mem a hx))]

lemma searchsortedLeft_at_onset :
    ∀ (ts : List ℚ), List.Pairwise (fun a b => a + eps < b) ts →
    ∀ (k : ℕ) (hk : k < ts.length),
      searchsortedLeft ts (ts.get ⟨k, hk⟩ + eps) = k + 1
  | [], _, k, hk => absurd hk (by simp)
  | a :: r, hp, 0, _ => by
    have h1 := (List.pairwise_cons.mp hp).1
    simp only [List.get, searchsortedLeft]
    rw [if_pos (by linarith [eps_pos]),
      searchsortedLeft_eq_zero (fun x hx => not_lt.mpr (le_of_lt (h1 x hx)))]
  | a :: r, hp, k + 1, hk => by
    have hk' : k < r.length := by simpa using hk
    have hmem : r.get ⟨k, hk'⟩ ∈ r := List.get_mem r k hk'
    have ha : a + eps < r.get ⟨k, hk'⟩ := (List.pairwise_cons.mp hp).1 _ hmem
    simp only [List.get, searchsortedLeft]
    rw [if_pos (by linarith [eps_pos]),
      searchsortedLeft_at_onset r (List.pairwise_cons.mp hp).2 k hk']
    omega

/-! ### Store lemmas -/

lemma read_alloc_lt {σ : Store} {v : List ℚ} {r : ℕ} (h : r < σ.length) :
    ((σ ++ [v] : List (List ℚ)) : Store).read r = σ.read r := by
  simp only [Store.read, List.getD_eq_getElem?_getD, List.getElem?_append_left h]

lemma read_alloc_last (σ : Store) (v : List ℚ) :
    ((σ ++ [v] : List (List ℚ)) : Store).read σ.length = v := by
  simp only [Store.read, List.getD_eq_getElem?_getD, List.getElem?_concat_length,
    Option.getD_some]

lemma read_write_same {σ : Store} {v : List ℚ} {r : ℕ} (h : r < σ.length) :
    (σ.write r v).read r = v := by
  simp only [Store.write, Store.read, List.getD_eq_getElem?_getD,
    List.getElem?_set_eq_of_lt _ h, Option.getD_some]

lemma read_write_ne {σ : Store} {v : List ℚ} {r r2 : ℕ} (h : r ≠ r2) :
    (σ.write r v).read r2 = σ.read r2 := by
  simp only [Store.write, Store.read, List.getD_eq_getElem?_getD,
    List.getElem?_set_ne h]

lemma screenM_fst (s : ScreenInterpolator) (tRef : ℕ) (σ : Store) :
    (s.interpolateM tRef σ).1 = s.interpolate (σ.read tRef) := by
  have hl : σ.length < (σ ++ [(σ.read tRef).filter (fun t => s.valid_interval.mem t)]).length := by
    simp
  dsimp only [ScreenInterpolator.interpolateM, ScreenInterpolator.interpolate, Store.alloc]
  rw [read_alloc_last, read_write_same hl]

lemma screenM_read_preserved (s : ScreenInterpolator) (tRef : ℕ) (σ : Store)
    (h : tRef < σ.length) :
    ((s.interpolateM tRef σ).2).read tRef = σ.read tRef := by
  dsimp only [ScreenInterpolator.interpolateM, Store.alloc]
  rw [read_write_ne (ne_of_gt h), read_alloc_lt h]

lemma seqM_fst (s : SequenceInterpolator) (tRef : ℕ) (σ : Store) :
    (s.interpolateM tRef σ).1 = s.interpolate (σ.read tRef) := by
  dsimp only [SequenceInterpolator.interpolateM, SequenceInterpolator.interpolate, Store.alloc]
  rw [read_alloc_last]

lemma seqM_read_preserved (s : SequenceInterpolator) (tRef : ℕ) (σ : Store)
    (h : tRef < σ.length) :
    ((s.interpolateM tRef σ).2).read tRef = σ.read tRef := by
  dsimp only [SequenceInterpolator.interpolateM, Store.alloc]
  rw [read_alloc_lt h]

/-! ### Chunk-map lemmas for the multi-chunk gather -/

lemma dfiAux_length : ∀ (i : ℕ) (ms : List ScreenMeta),
    (dfiAux i ms).length = (ms.map ScreenMeta.num_frames).sum
  | _, [] => rfl
  | i, m :: ms => by
    simp [dfiAux, dfiAux_length (i + 1) ms]

lemma dfiAux_succ : ∀ (i : ℕ) (ms : List ScreenMeta),
    dfiAux (i + 1) ms = (dfiAux i ms).map (· + 1)
  | _, [] => rfl
  | i, m :: ms => by
    simp only [dfiAux, List.map_append, List.map_replicate]
    rw [dfiAux_succ (i + 1) ms]

lemma sum_num_frames_eq :
    ∀ (metas : List ScreenMeta) (chunks : List (List (List ℚ))),
    metas.length = chunks.length →
    (∀ (k : ℕ) (hk : k < metas.length) (hk2 : k < chunks.length),
      (metas.get ⟨k, hk⟩).num_frames = (chunks.get ⟨k, hk2⟩).length) →
    (metas.map ScreenMeta.num_frames).sum = (chunks.map List.length).sum
  | [], [], _, _ => rfl
  | [], _ :: _, h, _ => by simp at h
  | _ :: _, [], h, _ => by simp at h
  | m :: ms, ch :: cs, h, h2 => by
    simp only [List.map_cons, List.sum_cons]
    have h0 : m.num_frames = ch.length := by simpa using h2 0 (by simp) (by simp)
    rw [h0, sum_num_frames_eq ms cs (by simpa using h)
      (fun k hk hk2 => by simpa using h2 (k + 1) (by simpa using hk) (by simpa using hk2))]

lemma chunk_gather_eq_flatten :
    ∀ (metas : List ScreenMeta) (chunks : List (List (List ℚ))) (off : ℤ),
    metas.length = chunks.length →
    (∀ (k : ℕ) (hk : k < metas.length) (hk2 : k < chunks.length),
      (metas.get ⟨k, hk⟩).num_frames = (chunks.get ⟨k, hk2⟩).length) →
    (∀ (k : ℕ) (hk : k < metas.length),
      (metas.get ⟨k, hk⟩).first_frame = off + (((chunks.take k).map List.length).sum : ℤ)) →
    ∀ (g : ℕ), g < (chunks.map List.length).sum →
      ((dfiAux 0 metas)[g]?).bind (fun u => chunkLookup metas chunks u (off + g)) =
        chunks.flatten[g]?
  | [], [], _, _, _, _, _, hg => by simp at hg
  | [], _ :: _, _, h1, _, _, _, _ => by simp at h1
  | _ :: _, [], _, h1, _, _, _, _ => by simp at h1
  | m :: ms, ch :: cs, off, h1, h2, h3, g, hg => by
    have hmc : m.num_frames = ch.length := by simpa using h2 0 (by simp) (by simp)
    have hff : m.first_frame = off := by simpa using h3 0 (by simp)
    have hdfi : dfiAux 0 (m :: ms) = List.replicate ch.length 0 ++ dfiAux 1 ms := by
      rw [show dfiAux 0 (m :: ms) = List.replicate m.num_frames 0 ++ dfiAux 1 ms from rfl, hmc]
    rw [hdfi, List.flatten_cons]
    by_cases hgc : g < ch.length
    · rw [List.getElem?_append_left (by simpa using hgc),
        List.getElem?_replicate, if_pos hgc, List.getElem?_append_left hgc]
      show chunkLookup (m :: ms) (ch :: cs) 0 (off + g) = ch[g]?
      have hnp : npIndex ch.length (off + (g : ℤ) - m.first_frame) = some g := by
        rw [hff, show (off + (g : ℤ) - off) = (g : ℤ) by ring]
        unfold npIndex
        rw [if_pos ⟨Int.natCast_nonneg g, by exact_mod_cast hgc⟩]
        simp
      simp [chunkLookup, hnp]
    · push_neg at hgc
      rw [List.getElem?_append_right (by simpa using hgc),
        List.getElem?_append_right hgc]
      simp only [List.length_replicate]
      rw [dfiAux_succ 0 ms, List.getElem?_map]
      have hg' : g - ch.length < (cs.map List.length).sum := by
        simp only [List.map_cons, List.sum_cons] at hg
        omega
      have hbind : ((dfiAux 0 ms)[g - ch.length]?.map (· + 1)).bind
            (fun u => chunkLookup (m :: ms) (ch :: cs) u (off + g)) =
          ((dfiAux 0 ms)[g - ch.length]?).bind
            (fun u => chunkLookup ms cs u ((off + ch.length) + (g - ch.length : ℕ))) := by
        cases ho : (dfiAux 0 ms)[g - ch.length]? with
        | none => rfl
        | some u0 =>
          simp only [Option.map_some, Option.some_bind]
          show chunkLookup (m :: ms) (ch :: cs) (u0 + 1) (off + g) = _
          unfold chunkLookup
          simp only [List.getElem?_cons_succ]
          rw [show (off + (g : ℤ)) = (off + ch.length) + ((g - ch.length : ℕ) : ℤ) by
            omega]
      rw [hbind]
      exact chunk_gather_eq_flatten ms cs (off + ch.length) (by simpa using h1)
        (fun k hk hk2 => by simpa using h2 (k + 1) (by simpa using hk) (by simpa using hk2))
        (fun k hk => by
          have := h3 (k + 1) (Nat.succ_lt_succ hk)
          simp only [List.get_cons_succ] at this
          rw [this, List.take_succ_cons, List.map_cons, List.sum_cons]
          push_cast
          ring)
        (g - ch.length) hg'

lemma gatherFrame_singleChunk (s : ScreenInterpolator)
    (h1 : s.meta.length = s.chunkData.length)
    (h2 : ∀ (k : ℕ) (hk : k < s.meta.length) (hk2 : k < s.chunkData.length),
      (s.meta.get ⟨k, hk⟩).num_frames = (s.chunkData.get ⟨k, hk2⟩).length)
    (h3 : ∀ (k : ℕ) (hk : k < s.meta.length),
      (s.meta.get ⟨k, hk⟩).first_frame = (((s.chunkData.take k).map List.length).sum : ℤ))
    (i : ℤ) (hi : 0 ≤ i) :
    s.gatherFrame i = (singleChunk s).gatherFrame i := by
  have hflat : s.chunkData.flatten.length = (s.chunkData.map List.length).sum :=
    List.length_flatten _
  have hlen : s.dataFileIdx.length = (s.chunkData.map List.length).sum := by
    rw [ScreenInterpolator.dataFileIdx, dfiAux_length]
    exact sum_num_frames_eq _ _ h1 h2
  have hlen2 : (singleChunk s).dataFileIdx.length = (s.chunkData.map List.length).sum := by
    simp [singleChunk, ScreenInterpolator.dataFileIdx, dfiAux, hflat]
  unfold ScreenInterpolator.gatherFrame
  by_cases hin : i < ((s.chunkData.map List.length).sum : ℤ)
  · have hnp1 : npIndex s.dataFileIdx.length i = some i.toNat := by
      unfold npIndex
      rw [hlen, if_pos ⟨hi, hin⟩]
    have hnp2 : npIndex (singleChunk s).dataFileIdx.length i = some i.toNat := by
      unfold npIndex
      rw [hlen2, if_pos ⟨hi, hin⟩]
    rw [hnp1, hnp2]
    simp only [Option.bind_eq_bind, Option.some_bind]
    have hg : i.toNat < (s.chunkData.map List.length).sum := by omega
    have hmain := chunk_gather_eq_flatten s.meta s.chunkData 0 h1 h2
      (fun k hk => by rw [h3 k hk]; ring) i.toNat hg
    rw [show ((0 : ℤ) + (i.toNat : ℤ)) = i by omega] at hmain
    have hidx : ((singleChunk s).dataFileIdx)[i.toNat]? = some 0 := by
      simp [singleChunk, ScreenInterpolator.dataFileIdx, dfiAux,
        List.getElem?_replicate, hg]
    rw [hidx]
    simp only [Option.bind_eq_bind, Option.some_bind]
    have hnp3 : npIndex (List.map List.length s.chunkData).sum i = some i.toNat := by
      unfold npIndex
      rw [if_pos ⟨hi, hin⟩]
    have hrhs : chunkLookup (singleChunk s).meta (singleChunk s).chunkData 0 i =
        s.chunkData.flatten[i.toNat]? := by
      simp [singleChunk, chunkLookup, hnp3]
    rw [hrhs]
    exact hmain
  · have hnone1 : npIndex s.dataFileIdx.length i = none := by
      unfold npIndex
      rw [hlen, if_neg (by omega), if_neg (by omega)]
    have hnone2 : npIndex (singleChunk s).dataFileIdx.length i = none := by
      unfold npIndex
      rw [hlen2, if_neg (by omega), if_neg (by omega)]
    rw [hnone1, hnone2]
    rfl

/-! ### Claim theorems -/

/-- C1: the spec says that with `phase_shift_per_signal` unset,
`interpolate` behaves as if every phase shift were zero and returns
`data[round((t - start_time) / time_delta), c]` for each valid query time;
the code instead never assigns `self._phase_shifts` (only the
`phase_shift_per_signal` branch of `__init__` does) and `interpolate`
dereferences it unconditionally, so every call raises `AttributeError`.
Evaluated here at a concrete no-shift recording and an in-range query. -/
theorem seq_interpolate_without_phase_shifts_raises :
    (SequenceInterpolator.init 0 10 10 false []
        (List.replicate 101 [0])).interpolate [1/2] =
      .error "AttributeError: 'SequenceInterpolator' object has no attribute '_phase_shifts'" :=
  rfl

/-- C3: for a phase-shifted `SequenceInterpolator`, the narrowed valid
interval `[start + max(shift), end + min(shift))` forces every gather index
`round((t - shift[c] - start) / time_delta)` produced inside `interpolate`
to lie within the data tensor's row bounds, provided the data holds a
sample for every index up to `round((end - start) / time_delta)`. -/
theorem seq_phase_shift_indices_in_bounds
    (start_time end_time sampling_rate t p : ℚ) (shifts : List ℚ)
    (data_file : List (List ℚ)) (s : SequenceInterpolator)
    (hs : s = SequenceInterpolator.init start_time end_time sampling_rate true shifts data_file)
    (hrate : 0 < sampling_rate) (hp : p ∈ shifts)
    (ht : s.valid_interval.mem t = true)
    (hdata : roundHalfEven ((end_time - start_time) / s.time_delta) < (s.data.length : ℤ)) :
    0 ≤ roundHalfEven ((t - p - s.start_time) / s.time_delta) ∧
      roundHalfEven ((t - p - s.start_time) / s.time_delta) < (s.data.length : ℤ) := by
  subst hs
  simp only [SequenceInterpolator.init, TimeInterval.mem, if_true] at ht hdata ⊢
  rw [Bool.and_eq_true, decide_eq_true_iff, decide_eq_true_iff] at ht
  obtain ⟨h1, h2⟩ := ht
  have hmax := le_npMax hp
  have hmin := npMin_le hp
  have hd : (0 : ℚ) < 1 / sampling_rate := by positivity
  have hlow : (0 : ℚ) ≤ (t - p - start_time) / (1 / sampling_rate) :=
    div_nonneg (by linarith) hd.le
  have hup : (t - p - start_time) / (1 / sampling_rate) <
      (end_time - start_time) / (1 / sampling_rate) :=
    (div_lt_div_iff_of_pos_right hd).mpr (by linarith)
  exact ⟨roundHalfEven_nonneg hlow,
    lt_of_le_of_lt (roundHalfEven_le_of_lt hup) hdata⟩

/-- Witness for C3, instantiated at the concrete recording `demoSeq`
(start 0, end 10, rate 1, one channel with shift 0, 11 data rows) and
query time 5, channel shift 0. -/
theorem seq_phase_shift_indices_in_bounds_witness :
    0 ≤ roundHalfEven ((5 - 0 - demoSeq.start_time) / demoSeq.time_delta) ∧
      roundHalfEven ((5 - 0 - demoSeq.start_time) / demoSeq.time_delta) <
        (demoSeq.data.length : ℤ) :=
  seq_phase_shift_indices_in_bounds 0 10 1 5 0 [0] (List.replicate 11 [0]) demoSeq rfl
    (by norm_num)
    (by simp)
    (by norm_num [demoSeq, SequenceInterpolator.init, TimeInterval.mem, npMax, npMin])
    (by
      have h10 : ((10 : ℚ) - 0) / demoSeq.time_delta = ((10 : ℤ) : ℚ) := by
        norm_num [demoSeq, SequenceInterpolator.init]
      rw [h10, roundHalfEven_intCast]
      norm_num [demoSeq, SequenceInterpolator.init])

/-- C2 counterexample: the claim says a `SequenceInterpolator`'s membership
test returns true iff some queried time lies in the half-open valid
interval.  At the concrete recording `demoSeq` and query `[1]`, the time 1
does lie in the valid interval (the shadowed first `__contains__` would
return true), yet the effective membership test returns no boolean at all:
it raises `AttributeError`, because the second `__contains__` definition
shadows the first and reads the nonexistent `timestamps` attribute. -/
theorem contains_seq_counterexample :
    containsFirstDef demoSeq.valid_interval [1] = true ∧
      ∀ b : Bool, demoSeq.contains [1] ≠ Except.ok b := by
  constructor
  · norm_num [containsFirstDef, demoSeq, SequenceInterpolator.init,
      TimeInterval.intersect, TimeInterval.mem, npMax, npMin]
  · intro b h
    exact absurd h (by simp [SequenceInterpolator.contains])

/-- C2 amended: the second `__contains__` definition (lines 60-61) shadows
the first for every interpolator.  For screen data with a nonempty
timestamps array the membership test returns true iff some queried time
lies in `[timestamps[0], timestamps[-1]]` inclusive, as claimed; for a
`SequenceInterpolator`, which never assigns a `timestamps` attribute, the
test raises `AttributeError` instead of consulting the valid interval. -/
theorem contains_effective_semantics :
    (∀ (s : SequenceInterpolator) (times : List ℚ),
      s.contains times =
        .error "AttributeError: 'SequenceInterpolator' object has no attribute 'timestamps'") ∧
    (∀ (s : ScreenInterpolator) (times : List ℚ) (a : ℚ) (r : List ℚ),
      s.timestamps = a :: r →
      ∃ b : Bool, s.contains times = .ok b ∧
        (b = true ↔ ∃ t ∈ times, a ≤ t ∧ t ≤ (a :: r).getLast (List.cons_ne_nil a r))) := by
  refine ⟨fun s times => rfl, fun s times a r h => ?_⟩
  cases s with
  | mk start_time end_time valid_interval timestamps meta chunkData =>
    simp only at h
    subst h
    refine ⟨_, rfl, ?_⟩
    simp [List.any_eq_true]

/-- Witness for C2's amended claim at the concrete recording `demoScreen`
(timestamps `[0, 1, 2, 3]`) and query `[5]`. -/
theorem contains_effective_semantics_witness :
    ∃ b : Bool, demoScreen.contains [5] = .ok b ∧
      (b = true ↔ ∃ t ∈ [(5 : ℚ)],
        0 ≤ t ∧ t ≤ ((0 : ℚ) :: [1, 2, 3]).getLast (List.cons_ne_nil 0 [1, 2, 3])) :=
  contains_effective_semantics.2 demoScreen [5] 0 [1, 2, 3] rfl

/-- C7: whenever the nudged valid query times are not strictly increasing
(equal neighbours included), `ScreenInterpolator.interpolate` aborts with
the sortedness error and returns no frames. -/
theorem screen_unsorted_times_rejected (s : ScreenInterpolator) (times : List ℚ)
    (h : strictlyIncreasing (nudge (times.filter (fun t => s.valid_interval.mem t))) = false) :
    s.interpolate times = .error "Times must be sorted" := by
  simp only [ScreenInterpolator.interpolate, h, Bool.false_eq_true, if_false]

/-- Witness for C7 at the concrete recording `demoScreen` and the unsorted
query `[2, 1]` (both times valid). -/
theorem screen_unsorted_times_rejected_witness :
    strictlyIncreasing (nudge ([2, 1].filter (fun t => demoScreen.valid_interval.mem t))) =
        false ∧
      demoScreen.interpolate [2, 1] = .error "Times must be sorted" :=
  ⟨by norm_num [strictlyIncreasing, nudge, TimeInterval.mem, demoScreen, eps],
   screen_unsorted_times_rejected demoScreen [2, 1]
     (by norm_num [strictlyIncreasing, nudge, TimeInterval.mem, demoScreen, eps])⟩

/-- C8: when the sortedness check passes but some resolved frame index lies
outside `[0, len(timestamps))`, `ScreenInterpolator.interpolate` aborts
with the range error, and it does so for every possible chunk-file
contents, i.e. before any chunk file is read. -/
theorem screen_out_of_range_index_aborts (s : ScreenInterpolator) (times : List ℚ)
    (hsort : strictlyIncreasing (nudge (times.filter (fun t => s.valid_interval.mem t))) = true)
    (hoob : (resolveFrameIdx s.timestamps
        (nudge (times.filter (fun t => s.valid_interval.mem t)))).all
        (fun i => decide (0 ≤ i) && decide (i < (s.timestamps.length : ℤ))) = false) :
    ∀ chunkData2 : List (List (List ℚ)),
      ({ s with chunkData := chunkData2 } : ScreenInterpolator).interpolate times =
        .error "All times must be within the valid range" := by
  intro chunkData2
  simp only [ScreenInterpolator.interpolate, hsort, hoob, Bool.false_eq_true, if_false, if_true]

/-- Witness for C8 at the concrete recording `demoScreen2` (first frame
onset at time 1, valid interval `[0, 3)`) and the valid query `[1/2]`,
whose resolved frame index is `-1`; the chunk files are replaced by an
empty list to exhibit that they are never read. -/
theorem screen_out_of_range_index_aborts_witness :
    ({ demoScreen2 with chunkData := [] } : ScreenInterpolator).interpolate [1/2] =
      .error "All times must be within the valid range" :=
  screen_out_of_range_index_aborts demoScreen2 [1/2]
    (by norm_num [strictlyIncreasing, nudge, TimeInterval.mem, demoScreen2, eps])
    (by norm_num [resolveFrameIdx, nudge, searchsortedLeft, TimeInterval.mem,
      demoScreen2, eps])
    []

/-- C4: with frame onsets `[0, 1, 2, 3]`, interpolating the query times
`[0.5, 1.0, 2.9]` resolves frame indices `[0, 1, 2]` and returns the
corresponding frames; and in general, under the epsilon nudge followed by
the searchsorted-then-subtract-1 lookup, a query time exactly equal to a
frame onset resolves to that frame (whenever consecutive onsets are more
than epsilon apart). -/
theorem screen_onset_resolution :
    (resolveFrameIdx demoScreen.timestamps (nudge [1/2, 1, 29/10]) = [0, 1, 2] ∧
      demoScreen.interpolate [1/2, 1, 29/10] =
        .ok ([[0], [10], [20]], [true, true, true])) ∧
    ∀ (ts : List ℚ), List.Pairwise (fun a b => a + eps < b) ts →
      ∀ (k : ℕ) (hk : k < ts.length),
        resolveFrameIdx ts (nudge [ts.get ⟨k, hk⟩]) = [(k : ℤ)] := by
  refine ⟨⟨?_, ?_⟩, ?_⟩
  · norm_num [resolveFrameIdx, nudge, searchsortedLeft, demoScreen, eps]
  · norm_num [ScreenInterpolator.interpolate, resolveFrameIdx, nudge, searchsortedLeft,
      demoScreen, eps, TimeInterval.mem, TimeInterval.intersect, strictlyIncreasing,
      mapOpt, ScreenInterpolator.gatherFrame, ScreenInterpolator.dataFileIdx, dfiAux,
      chunkLookup, npIndex, Int.toNat_ofNat]
    rfl
  · intro ts hp k hk
    simp only [resolveFrameIdx, nudge, List.map_cons, List.map_nil]
    rw [searchsortedLeft_at_onset ts hp k hk]
    simp only [List.cons.injEq, and_true]
    omega

/-- Witness for C4's general onset statement at onsets `[0, 1, 2, 3]` and
the query exactly equal to the onset of frame 2. -/
theorem screen_onset_resolution_witness :
    resolveFrameIdx [0, 1, 2, 3] (nudge [2]) = [(2 : ℤ)] := by
  have h := screen_onset_resolution.2 [0, 1, 2, 3]
    (by norm_num [List.pairwise_cons, eps]) 2 (by norm_num)
  exact h

/-- C5: whenever `interpolate` returns, the mask has one entry per query
time, true exactly for times inside the valid interval, and the values are
compacted: their first dimension equals the number of valid times (rows of
`num_channels` entries for sequences; one frame of the chunk files' frame
shape per valid time for screens), not the input length. -/
theorem interpolate_mask_and_compaction :
    (∀ (s : SequenceInterpolator) (times : List ℚ) (vals : List (List ℚ)) (mask : List Bool),
      s.interpolate times = .ok (vals, mask) →
      mask = times.map (fun t => s.valid_interval.mem t) ∧
      vals.length = times.countP (fun t => s.valid_interval.mem t) ∧
      ∀ ps, s.phase_shifts = some ps → ∀ row ∈ vals, row.length = ps.length) ∧
    (∀ (s : ScreenInterpolator) (times : List ℚ) (out : List (List ℚ)) (mask : List Bool),
      s.interpolate times = .ok (out, mask) →
      mask = times.map (fun t => s.valid_interval.mem t) ∧
      out.length = times.countP (fun t => s.valid_interval.mem t) ∧
      ∀ L : ℕ, (∀ chunk ∈ s.chunkData, ∀ f ∈ chunk, f.length = L) →
        ∀ f ∈ out, f.length = L) := by
  constructor
  · intro s times vals mask h
    simp only [SequenceInterpolator.interpolate] at h
    split at h
    · exact absurd h (by simp)
    · next ps hps =>
      split at h
      · next vals2 hmo =>
        obtain ⟨h1, h2⟩ : vals2 = vals ∧ s.valid_interval.intersect times = mask := by
          simpa using h
        subst h1
        subst h2
        refine ⟨rfl, ?_, ?_⟩
        · rw [mapOpt_length hmo, List.countP_eq_length_filter]
        · intro ps2 hps2 row hrow
          rw [hps] at hps2
          injection hps2 with e
          subst e
          obtain ⟨t, _, hrow2⟩ := mapOpt_mem hmo row hrow
          rw [mapOpt_length hrow2, List.enum_length]
      · exact absurd h (by simp)
  · intro s times out mask h
    simp only [ScreenInterpolator.interpolate] at h
    split at h
    · split at h
      · split at h
        · next out2 hmo =>
          obtain ⟨h1, h2⟩ : out2 = out ∧ s.valid_interval.intersect times = mask := by
            simpa using h
          subst h1
          subst h2
          refine ⟨rfl, ?_, ?_⟩
          · rw [mapOpt_length hmo]
            simp [resolveFrameIdx, nudge, List.countP_eq_length_filter]
          · intro L hL f hf
            obtain ⟨i, _, hgf⟩ := mapOpt_mem hmo f hf
            unfold ScreenInterpolator.gatherFrame at hgf
            simp only [Option.bind_eq_bind, Option.bind_eq_some] at hgf
            obtain ⟨gi, _, u, _, hcl⟩ := hgf
            unfold chunkLookup at hcl
            simp only [Option.bind_eq_bind, Option.bind_eq_some] at hcl
            obtain ⟨chunk, hchunk, m, _, loc, _, hf2⟩ := hcl
            have hchunk_mem : chunk ∈ s.chunkData := by
              rcases List.getElem?_eq_some_iff.mp hchunk with ⟨hlt, h3⟩
              exact h3 ▸ List.getElem_mem hlt
            have hf_mem : f ∈ chunk := by
              rcases List.getElem?_eq_some_iff.mp hf2 with ⟨hlt, h3⟩
              exact h3 ▸ List.getElem_mem hlt
            exact hL chunk hchunk_mem f hf_mem
        · exact absurd h (by simp)
      · exact absurd h (by simp)
    · exact absurd h (by simp)

set_option maxRecDepth 8000 in
/-- Witness for C5 at the concrete screen recording `demoScreen` and the
concrete sequence recording `demoSeq`, each with a query list containing
one valid and one invalid time. -/
theorem interpolate_mask_and_compaction_witness :
    ([true, false] = [(1 : ℚ), 20].map (fun t => demoSeq.valid_interval.mem t) ∧
      ([[0]] : List (List ℚ)).length =
        [(1 : ℚ), 20].countP (fun t => demoSeq.valid_interval.mem t) ∧
      ∀ ps, demoSeq.phase_shifts = some ps →
        ∀ row ∈ ([[0]] : List (List ℚ)), row.length = ps.length) ∧
    ([true, false] = [(1 : ℚ), 20].map (fun t => demoScreen.valid_interval.mem t) ∧
      ([[10]] : List (List ℚ)).length =
        [(1 : ℚ), 20].countP (fun t => demoScreen.valid_interval.mem t) ∧
      ∀ L : ℕ, (∀ chunk ∈ demoScreen.chunkData, ∀ f ∈ chunk, f.length = L) →
        ∀ f ∈ ([[10]] : List (List ℚ)), f.length = L) := by
  constructor
  · exact interpolate_mask_and_compaction.1 demoSeq [1, 20] [[0]] [true, false]
      (by
        simp only [SequenceInterpolator.interpolate]
        norm_num [demoSeq, SequenceInterpolator.init,
          TimeInterval.intersect, TimeInterval.mem, npMax, npMin]
        norm_num [mapOpt, seqGatherEntry, npIndex, roundHalfEven, Int.fract, round_eq,
          Int.toNat_ofNat, List.enum])
  · exact interpolate_mask_and_compaction.2 demoScreen [1, 20] [[10]] [true, false]
      (by
        simp only [ScreenInterpolator.interpolate]
        norm_num [demoScreen, TimeInterval.intersect, TimeInterval.mem,
          strictlyIncreasing, nudge, eps, resolveFrameIdx, searchsortedLeft]
        norm_num [mapOpt, ScreenInterpolator.gatherFrame, ScreenInterpolator.dataFileIdx,
          dfiAux, chunkLookup, npIndex, Int.toNat_ofNat])

/-- C6: when the per-chunk metadata matches the chunk files (frame counts
equal the file lengths and each `first_frame` is the running total of the
preceding chunks' frames), interpolating any query times against the
multi-chunk recording returns bit-identical results to interpolating the
same times against the single-chunk recording holding the same logical
frames (same timestamps, one chunk file concatenating all frames). -/
theorem multi_chunk_gather_equivalence (s : ScreenInterpolator)
    (h1 : s.meta.length = s.chunkData.length)
    (h2 : ∀ (k : ℕ) (hk : k < s.meta.length) (hk2 : k < s.chunkData.length),
      (s.meta.get ⟨k, hk⟩).num_frames = (s.chunkData.get ⟨k, hk2⟩).length)
    (h3 : ∀ (k : ℕ) (hk : k < s.meta.length),
      (s.meta.get ⟨k, hk⟩).first_frame = (((s.chunkData.take k).map List.length).sum : ℤ))
    (times : List ℚ) :
    s.interpolate times = (singleChunk s).interpolate times := by
  simp only [ScreenInterpolator.interpolate]
  rw [show (singleChunk s).valid_interval = s.valid_interval from rfl,
    show (singleChunk s).timestamps = s.timestamps from rfl]
  split
  · split
    · next hall =>
      have hpt : ∀ i ∈ resolveFrameIdx s.timestamps
          (nudge (times.filter fun t => s.valid_interval.mem t)),
          s.gatherFrame i = (singleChunk s).gatherFrame i := by
        intro i hi
        have hb := List.all_eq_true.mp hall i hi
        rw [Bool.and_eq_true, decide_eq_true_iff, decide_eq_true_iff] at hb
        exact gatherFrame_singleChunk s h1 h2 h3 i hb.1
      rw [mapOpt_congr hpt]
    · rfl
  · rfl

/-- Witness for C6 at the concrete two-chunk recording `demoMulti` and the
query times `[1/2, 3/2]` (one in each chunk). -/
theorem multi_chunk_gather_equivalence_witness :
    demoMulti.interpolate [1/2, 3/2] = (singleChunk demoMulti).interpolate [1/2, 3/2] :=
  multi_chunk_gather_equivalence demoMulti rfl
    (by
      intro k hk hk2
      rcases k with _ | _ | k
      · rfl
      · rfl
      · exact absurd hk (by simp [demoMulti]))
    (by
      intro k hk
      rcases k with _ | _ | k
      · rfl
      · rfl
      · exact absurd hk (by simp [demoMulti]))
    [1/2, 3/2]

/-- C9: `interpolate` leaves the interpolator's attributes untouched and
only mutates a freshly allocated array, so two successive calls with the
identical input (same times reference into the same store) return identical
results, for screen and sequence interpolators alike. -/
theorem interpolate_idempotent :
    (∀ (s : ScreenInterpolator) (tRef : ℕ) (σ : Store), tRef < σ.length →
      (s.interpolateM tRef ((s.interpolateM tRef σ).2)).1 = (s.interpolateM tRef σ).1) ∧
    (∀ (s : SequenceInterpolator) (tRef : ℕ) (σ : Store), tRef < σ.length →
      (s.interpolateM tRef ((s.interpolateM tRef σ).2)).1 = (s.interpolateM tRef σ).1) := by
  constructor
  · intro s tRef σ h
    rw [screenM_fst, screenM_fst, screenM_read_preserved s tRef σ h]
  · intro s tRef σ h
    rw [seqM_fst, seqM_fst, seqM_read_preserved s tRef σ h]

/-- Witness for C9: two repeated calls on the concrete recordings
`demoScreen` and `demoSeq`, with the times array `[1]` stored at
reference 0 of a one-array store. -/
theorem interpolate_idempotent_witness :
    0 < ([[(1 : ℚ)]] : Store).length ∧
    (demoScreen.interpolateM 0 ((demoScreen.interpolateM 0 [[(1 : ℚ)]]).2)).1 =
      (demoScreen.interpolateM 0 [[(1 : ℚ)]]).1 ∧
    (demoSeq.interpolateM 0 ((demoSeq.interpolateM 0 [[(1 : ℚ)]]).2)).1 =
      (demoSeq.interpolateM 0 [[(1 : ℚ)]]).1 :=
  ⟨by simp,
   interpolate_idempotent.1 demoScreen 0 [[(1 : ℚ)]] (by simp),
   interpolate_idempotent.2 demoSeq 0 [[(1 : ℚ)]] (by simp)⟩

/-- C10: `ScreenInterpolator.interpolate` never modifies the caller's times
array: the in-place epsilon addition hits the fresh array produced by
boolean-mask indexing, so after the call the reference passed in still
holds exactly the values it held before. -/
theorem screen_interpolate_preserves_times (s : ScreenInterpolator) (tRef : ℕ)
    (σ : Store) (h : tRef < σ.length) :
    ((s.interpolateM tRef σ).2).read tRef = σ.read tRef :=
  screenM_read_preserved s tRef σ h

/-- Witness for C10 on the concrete recording `demoScreen` with the times
array `[1]` stored at reference 0 of a one-array store. -/
theorem screen_interpolate_preserves_times_witness :
    0 < ([[(1 : ℚ)]] : Store).length ∧
    ((demoScreen.interpolateM 0 [[(1 : ℚ)]]).2).read 0 = Store.read [[(1 : ℚ)]] 0 :=
  ⟨by simp, screen_interpolate_preserves_times demoScreen 0 [[(1 : ℚ)]] (by simp)⟩

end Experanto
